import Mathlib

/-!
# Verification of the Companies House ingestion core

A shallow embedding, in Lean 4, of the pure core of the
`companies_house_data` repository: the ledger merge engine
(`scripts/common.py`), the iXBRL fact resolver and numeric normalizer
(`scripts/ixbrl_fetch_daily.py`), the document walker, the routing layer
(`scripts/ixbrl_bulk_parse.py`), and the entity-key normalizers
(`scripts/metadata_bulk_api_fill.py`, `scripts/metadata_snapshot_and_fill.py`).

Each definition is translated from the named Python function; theorems at
the end of the file settle the specification claims against these
definitions.  Numeric cell values are modelled as rationals (`ℚ`), dates as
typed year/month/day records, and byte blobs as strings.
-/

set_option autoImplicit false

namespace CompaniesHouse

/-!
## Ledger merge core (`scripts/common.py`, `append_parquet`)

`append_parquet` concatenates the previously published rows with the new
batch and calls `drop_duplicates(subset=keys, keep="last")`.  Pandas keeps,
for every key value, the row at the position of its *last* occurrence, and
preserves the relative order of the kept rows.  `dedupLast` is exactly that
operation on lists: a row is kept iff no later row has the same key.
-/

variable {α : Type} {κ : Type} [DecidableEq κ]

def dedupLast (key : α → κ) : List α → List α
  | [] => []
  | x :: xs => if key x ∈ xs.map key then dedupLast key xs else x :: dedupLast key xs

/-- A cell of a dataframe row: `none` models NaN/None. -/
abbrev Cell := Option String

/-- A dataframe row, as the insertion-ordered dict Python builds:
column name paired with cell value. -/
abbrev Row := List (String × Cell)

/-- Reading `row[c]`: `none` when the column is absent, `some v` otherwise. -/
def rowLookup (r : Row) (c : String) : Option Cell :=
  (r.find? (fun p => decide (p.1 = c))).map Prod.snd

/-- The tuple pandas compares under `drop_duplicates(subset=ks)`: the row's
cells at the key columns (absent column and NaN both compare as `none`,
matching pandas treating NaN as equal to NaN in dedup). -/
def rowKey (ks : List String) (r : Row) : List (Option Cell) :=
  ks.map (rowLookup r)

/-- `append_parquet` normalizes columns named `*_date` (and
`incorporation_date`) of the incoming batch to ISO strings before merging:
`if c.endswith("_date") or c in ("incorporation_date",)`.  (Suffix tests
are phrased on the character lists so that they compute by `decide`.) -/
def isDateCol (c : String) : Bool :=
  "_date".data.isSuffixOf c.data || c = "incorporation_date"

/-- The per-column date normalization pass of `append_parquet`
(`pd.to_datetime(...).dt.strftime("%Y-%m-%d")`), abstracted over the cell
transform `normCell` since cells are opaque strings here. -/
def normalizeRow (normCell : String → Cell → Cell) (r : Row) : Row :=
  r.map (fun p => if isDateCol p.1 then (p.1, normCell p.1 p.2) else p)

/-- `scripts/common.py :: append_parquet`, the pure merge it performs on
row sets.  `prior` is the outcome of reading the existing parquet: `.ok old`
when the file exists and decodes, `.error e` when it is missing, empty or
fails to decode (the `except` branch logs and recreates fresh).  The new
batch has its date columns normalized, is appended after the old rows, and
the union is deduplicated by `subset_keys` keeping the last occurrence. -/
def append_parquet (normCell : String → Cell → Cell)
    (prior : Except String (List Row)) (df_new : List Row)
    (subset_keys : List String) : List Row :=
  let dfNewNorm := df_new.map (normalizeRow normCell)
  match prior with
  | .ok df_old => dedupLast (rowKey subset_keys) (df_old ++ dfNewNorm)
  | .error _ => dedupLast (rowKey subset_keys) dfNewNorm

/-!
## Numeric normalizer (`scripts/ixbrl_fetch_daily.py`, `_to_float` and
`_scale_by_decimals`)

`_to_float` strips whitespace, treats `""`/`"nan"` as missing, rewrites a
fully parenthesised number `(x)` to `-x`, deletes every character outside
`[0-9\-\.+]` (the `_NON_DIGIT` regex: currency signs, commas, spaces), and
feeds the residue to Python's `float`, returning `None` on any failure.
Floats are modelled as rationals; after the character filter the residue
contains only digits, `-`, `.`, `+`, on which `float` accepts exactly an
optional leading sign followed by digits with at most one dot and at least
one digit.
-/

/-- Python `str.strip()`: drop whitespace from both ends. -/
def pyStrip (cs : List Char) : List Char :=
  ((cs.dropWhile Char.isWhitespace).reverse.dropWhile Char.isWhitespace).reverse

/-- The character filter `_NON_DIGIT.sub("", s)`: keep `[0-9\-\.+]`. -/
def keepNumChars (cs : List Char) : List Char :=
  cs.filter (fun c => c.isDigit || c = '-' || c = '.' || c = '+')

/-- Digit-string value, most significant first. -/
def digitsToNat (cs : List Char) : Nat :=
  cs.foldl (fun a c => a * 10 + (c.toNat - 48)) 0

/-- The unsigned part accepted by Python `float` over the residual alphabet:
digit runs with at most one dot and at least one digit overall.  The value
of `a.b` is the rational `(a·10^|b| + b) / 10^|b|`, i.e. `a + b/10^|b|`. -/
def parseUnsigned (cs : List Char) : Option ℚ :=
  match cs.splitOn '.' with
  | [a] =>
      if a ≠ [] ∧ a.all Char.isDigit then some (mkRat (digitsToNat a) 1) else none
  | [a, b] =>
      if (a ++ b) ≠ [] ∧ (a ++ b).all Char.isDigit then
        some (mkRat (digitsToNat a * 10 ^ b.length + digitsToNat b) (10 ^ b.length))
      else none
  | _ => none

/-- Python `float()` on the residual alphabet: one optional leading sign. -/
def parseSigned (cs : List Char) : Option ℚ :=
  match cs with
  | '+' :: rest => parseUnsigned rest
  | '-' :: rest => (parseUnsigned rest).map (fun q => -q)
  | _ => parseUnsigned cs

/-- `scripts/ixbrl_fetch_daily.py :: _to_float`. -/
def to_float (x : Option String) : Option ℚ :=
  match x with
  | none => none
  | some raw =>
    let s := pyStrip raw.toList
    if s = [] ∨ s.map Char.toLower = "nan".toList then none
    else
      let s := if s.head? = some '(' ∧ s.getLast? = some ')'
               then '-' :: (s.drop 1).dropLast else s
      let s := keepNumChars s
      if s = [] ∨ s = ['-'] ∨ s = ['+'] then none
      else parseSigned s

/-- `scripts/ixbrl_fetch_daily.py :: _scale_by_decimals`.  The source takes
`decimals` as int/str/None and passes the value through unchanged when
`int(decimals)` raises; `none` here covers both the absent and the
unconvertible case. -/
def scale_by_decimals (val : Option ℚ) (decimals : Option Int) : Option ℚ :=
  match val, decimals with
  | none, _ => none
  | some v, none => some v
  | some v, some d => if d < 0 then some (v * (10 : ℚ) ^ (-d).toNat) else some v

/-!
## Facts and the resolver (`scripts/ixbrl_fetch_daily.py`)
-/

/-- A calendar date (`pd.Timestamp` values carried by fact periods). -/
structure SDate where
  year : Int
  month : Nat
  day : Nat
deriving DecidableEq, Repr

/-- An `ixbrlparse` period context: `.instant` or `.start/.end`. -/
structure PeriodCtx where
  instant : Option SDate
  endDate : Option SDate
deriving DecidableEq, Repr

/-- An `ixbrlparse` fact as the parser surface used by the code:
`.name`, `.value`, `.decimals`, `.period`. -/
structure IFact where
  name : String
  value : Option String
  decimals : Option Int
  period : Option PeriodCtx
deriving DecidableEq, Repr

inductive PType where
  | instant : PType
  | duration : PType
deriving DecidableEq, Repr

/-- `scripts/ixbrl_fetch_daily.py :: _period_type`: missing period defaults
to `instant`; a period with a non-`None` `.instant` is `instant`; otherwise
`duration`. -/
def period_type (f : IFact) : PType :=
  match f.period with
  | none => .instant
  | some p => if p.instant.isSome then .instant else .duration

/-- `scripts/ixbrl_fetch_daily.py :: _period_dates`: an instant period
yields `(balance_sheet_date, none)`, a duration period `(none, end)`. -/
def period_dates (f : IFact) : Option SDate × Option SDate :=
  match f.period with
  | none => (none, none)
  | some p =>
    match p.instant with
    | some d => (some d, none)
    | none => (none, p.endDate)

/-- A parsed document's flat fact list (`doc.facts`). -/
structure Doc where
  facts : List IFact
deriving DecidableEq, Repr

/-- `scripts/ixbrl_fetch_daily.py :: CONCEPTS` — the synonym table. -/
def CONCEPTS : List (String × List String) := [
  ("tangible_fixed_assets",
    ["frs102:TangibleFixedAssets",
     "uk-gaap:TangibleFixedAssets",
     "uk-gaap:PropertyPlantAndEquipment",
     "ifrs-full:PropertyPlantAndEquipment"]),
  ("debtors",
    ["frs102:Debtors",
     "uk-gaap:Debtors",
     "uk-gaap:TradeAndOtherReceivables",
     "ifrs-full:TradeAndOtherReceivables"]),
  ("cash_bank_in_hand",
    ["frs102:CashBankInHand",
     "uk-gaap:CashBankInHand",
     "uk-gaap:CashAndCashEquivalents",
     "ifrs-full:CashAndCashEquivalents"]),
  ("current_assets",
    ["frs102:CurrentAssets", "uk-gaap:CurrentAssets", "ifrs-full:CurrentAssets"]),
  ("creditors_due_within_one_year",
    ["frs102:CreditorsAmountsFallingDueWithinOneYear",
     "uk-gaap:CreditorsDueWithinOneYear",
     "uk-gaap:CurrentTradeAndOtherPayables",
     "ifrs-full:TradeAndOtherCurrentPayables"]),
  ("creditors_due_after_one_year",
    ["frs102:CreditorsAmountsFallingDueAfterMoreThanOneYear",
     "uk-gaap:CreditorsDueAfterOneYear",
     "ifrs-full:NoncurrentTradeAndOtherPayables"]),
  ("net_current_assets_liabilities",
    ["frs102:NetCurrentAssetsLiabilities",
     "uk-gaap:NetCurrentAssetsLiabilities",
     "ifrs-full:NetCurrentAssetsLiabilities"]),
  ("total_assets_less_current_liabilities",
    ["frs102:TotalAssetsLessCurrentLiabilities",
     "uk-gaap:TotalAssetsLessCurrentLiabilities",
     "ifrs-full:TotalAssetsLessCurrentLiabilities"]),
  ("net_assets_liabilities_including_pension_asset_liability",
    ["frs102:NetAssetsLiabilitiesIncludingPensionAssetLiability",
     "uk-gaap:NetAssetsLiabilitiesIncludingPensionAssetLiability",
     "ifrs-full:Equity"]),
  ("called_up_share_capital",
    ["frs102:CalledUpShareCapitalPresentedWithinEquity",
     "uk-gaap:CalledUpShareCapital",
     "uk-gaap:CalledUpShareCapitalNotPaid",
     "ifrs-full:IssuedCapital"]),
  ("turnover_gross_operating_revenue",
    ["frs102:TurnoverGrossOperatingRevenue",
     "uk-gaap:TurnoverGrossOperatingRevenue",
     "ifrs-full:Revenue"]),
  ("other_operating_income",
    ["frs102:OtherOperatingIncome", "uk-gaap:OtherOperatingIncome",
     "ifrs-full:OtherOperatingIncome"]),
  ("cost_sales",
    ["frs102:CostOfSales", "uk-gaap:CostOfSales", "ifrs-full:CostOfSales"]),
  ("gross_profit_loss",
    ["frs102:GrossProfitLoss", "uk-gaap:GrossProfitLoss", "ifrs-full:GrossProfitLoss"]),
  ("administrative_expenses",
    ["frs102:AdministrativeExpenses", "uk-gaap:AdministrativeExpenses",
     "ifrs-full:AdministrativeExpense"]),
  ("raw_materials_consumables",
    ["frs102:RawMaterialsAndConsumables", "uk-gaap:RawMaterialsAndConsumables",
     "ifrs-full:RawMaterialsAndConsumablesUsed"]),
  ("staff_costs",
    ["frs102:StaffCosts", "uk-gaap:StaffCosts", "ifrs-full:EmployeeBenefitsExpense"]),
  ("depreciation_other_amounts_written_off_tangible_intangible_fixed_assets",
    ["frs102:DepreciationAmortisationAndImpairment",
     "uk-gaap:DepreciationAmortisationAndImpairment",
     "ifrs-full:DepreciationAndAmortisationExpense"]),
  ("other_operating_charges_format2",
    ["frs102:OtherOperatingCharges", "uk-gaap:OtherOperatingCharges",
     "ifrs-full:OtherOperatingExpense"]),
  ("operating_profit_loss",
    ["frs102:OperatingProfitLoss", "uk-gaap:OperatingProfitLoss",
     "ifrs-full:ProfitLossFromOperatingActivities"]),
  ("profit_loss_on_ordinary_activities_before_tax",
    ["frs102:ProfitLossOnOrdinaryActivitiesBeforeTax",
     "uk-gaap:ProfitLossOnOrdinaryActivitiesBeforeTax",
     "ifrs-full:ProfitLossBeforeTax"]),
  ("tax_on_profit_or_loss_on_ordinary_activities",
    ["frs102:TaxOnProfitLossOnOrdinaryActivities",
     "uk-gaap:TaxOnProfitLossOnOrdinaryActivities",
     "ifrs-full:IncomeTaxExpenseContinuingOperations"]),
  ("profit_loss_for_period",
    ["frs102:ProfitLossForPeriod", "uk-gaap:ProfitLossForPeriod",
     "ifrs-full:ProfitLoss"])]

/-- `CONCEPTS.get(logical_name, [])`. -/
def conceptsGet (logical_name : String) : List String :=
  ((CONCEPTS.find? (fun p => decide (p.1 = logical_name))).map Prod.snd).getD []

/-- `scripts/ixbrl_fetch_daily.py :: _PANDL_LOGICALS` — the profit-and-loss
(duration-typed) canonical fields. -/
def PANDL_LOGICALS : List String := [
  "turnover_gross_operating_revenue", "other_operating_income", "cost_sales",
  "gross_profit_loss", "administrative_expenses", "raw_materials_consumables",
  "staff_costs",
  "depreciation_other_amounts_written_off_tangible_intangible_fixed_assets",
  "other_operating_charges_format2", "operating_profit_loss",
  "profit_loss_on_ordinary_activities_before_tax",
  "tax_on_profit_or_loss_on_ordinary_activities", "profit_loss_for_period"]

/-- `scripts/ixbrl_fetch_daily.py :: _pick_fact` (the debug `meta` dict is
dropped, as `get_number` drops it).  Candidates are the facts whose `name`
is in `qnames`; `candidates.sort(key=lambda t: (t[0] != prefer,))` is a
stable sort on a boolean key, i.e. the preferred-period candidates in
document order followed by the others in document order; the head is
taken, its value parsed and scaled, its period dates extracted. -/
def pick_fact (doc : Doc) (qnames : List String) (prefer : PType) :
    Option ℚ × Option SDate × Option SDate :=
  let candidates := doc.facts.filter (fun f => decide (f.name ∈ qnames))
  match candidates.filter (fun f => decide (period_type f = prefer)) ++
        candidates.filter (fun f => decide (¬ period_type f = prefer)) with
  | [] => (none, none, none)
  | fact :: _ =>
    let val := scale_by_decimals (to_float fact.value) fact.decimals
    let pd := period_dates fact
    (val, pd.1, pd.2)

/-- `scripts/ixbrl_fetch_daily.py :: get_number`. -/
def get_number (doc : Doc) (logical_name : String) :
    Option ℚ × Option SDate × Option SDate :=
  let qnames := conceptsGet logical_name
  let prefer := if decide (logical_name ∈ PANDL_LOGICALS)
                then PType.duration else PType.instant
  pick_fact doc qnames prefer

/-!
## Document walker (`scripts/ixbrl_fetch_daily.py`,
`_iter_ixbrl_files_from_zip`)

An archive member is a named byte blob; when the runtime opens it as a zip
it either succeeds, revealing inner entries (`zipOf`), or raises
`BadZipFile` (`notZip`).
-/

mutual
inductive ZipEntry : Type where
  | ent : String → String → ZipData → ZipEntry

inductive ZipData : Type where
  | notZip : ZipData
  | zipOf : List ZipEntry → ZipData
end

def ZipEntry.name : ZipEntry → String
  | .ent n _ _ => n

def ZipEntry.bytes : ZipEntry → String
  | .ent _ b _ => b

def ZipEntry.payload : ZipEntry → ZipData
  | .ent _ _ d => d

/-- `n.lower().endswith((".htm", ".html", ".xhtml"))`. -/
def isDocName (n : String) : Bool :=
  (".htm".data.isSuffixOf (n.data.map Char.toLower)) ||
    (".html".data.isSuffixOf (n.data.map Char.toLower)) ||
    (".xhtml".data.isSuffixOf (n.data.map Char.toLower))

/-- `n.lower().endswith(".zip")`. -/
def isZipName (n : String) : Bool :=
  ".zip".data.isSuffixOf (n.data.map Char.toLower)

/-- `scripts/ixbrl_fetch_daily.py :: _iter_ixbrl_files_from_zip`, as the
list of `(name, bytes)` pairs it yields: top-level `.htm/.html/.xhtml`
entries directly; for a `.zip` entry it opens the nested archive and yields
the document entries found *one* level down (named `outer::inner`); a
nested blob that fails to open (`BadZipFile`) is skipped; everything else
is ignored. -/
def iter_ixbrl_files_from_zip (entries : List ZipEntry) : List (String × String) :=
  entries.flatMap (fun e =>
    if isDocName e.name then [(e.name, e.bytes)]
    else if isZipName e.name then
      match e.payload with
      | .notZip => []
      | .zipOf inner =>
        inner.filterMap (fun ie =>
          if isDocName ie.name then some (e.name ++ "::" ++ ie.name, ie.bytes)
          else none)
    else [])

/-!
## Routing (`scripts/ixbrl_bulk_parse.py :: main`, lines 258–271, and
`scripts/common.py :: half_from_date`)
-/

/-- `scripts/common.py :: half_from_date` on an already-typed date:
`'H1' if month <= 6 else 'H2'`, `None` when the date is missing. -/
def half_from_date (d : Option SDate) : Option String :=
  match d with
  | none => none
  | some d => if d.month ≤ 6 then some "H1" else some "H2"

/-- The reference date of bulk routing: `balance_sheet_date` where present,
else `period_end`, else the caller-computed fallback timestamp `fb`
(mid-month of the first requested month). -/
def routeRef (bs pe : Option SDate) (fb : SDate) : SDate :=
  ((bs.orElse (fun _ => pe)).getD fb)

/-- The `(_route_year, _route_half)` pair assigned per record in
`scripts/ixbrl_bulk_parse.py :: main`: year of the reference date, and
`"H1" if int(mm) <= 6 else "H2"` on its month. -/
def routePartition (bs pe : Option SDate) (fb : SDate) : Int × String :=
  let ref := routeRef bs pe fb
  (ref.year, if ref.month ≤ 6 then "H1" else "H2")

/-!
## Record builder and frame schema (`scripts/ixbrl_fetch_daily.py`,
`_parse_one_ixbrl` and `_parse_daily_zip`)
-/

/-- `scripts/ixbrl_fetch_daily.py :: TARGET_COLUMNS`. -/
def TARGET_COLUMNS : List String := [
  "run_code", "zip_url",
  "date", "file_type", "taxonomy",
  "companies_house_registered_number", "company_id",
  "entity_current_legal_name", "company_type", "company_dormant",
  "sic_code", "incorporation_date",
  "balance_sheet_date", "period_start", "period_end",
  "average_number_employees_during_period",
  "tangible_fixed_assets",
  "debtors",
  "cash_bank_in_hand",
  "current_assets",
  "creditors_due_within_one_year",
  "creditors_due_after_one_year",
  "net_current_assets_liabilities",
  "total_assets_less_current_liabilities",
  "net_assets_liabilities_including_pension_asset_liability",
  "called_up_share_capital",
  "turnover_gross_operating_revenue",
  "other_operating_income",
  "cost_sales",
  "gross_profit_loss",
  "administrative_expenses",
  "raw_materials_consumables",
  "staff_costs",
  "depreciation_other_amounts_written_off_tangible_intangible_fixed_assets",
  "other_operating_charges_format2",
  "operating_profit_loss",
  "profit_loss_on_ordinary_activities_before_tax",
  "tax_on_profit_or_loss_on_ordinary_activities",
  "profit_loss_for_period",
  "error"]

/-- Python dict assignment `row[k] = v`: overwrite in place when the key
exists (its position is preserved), append otherwise. -/
def dictSet (r : Row) (k : String) (v : Cell) : Row :=
  match r with
  | [] => [(k, v)]
  | p :: ps => if p.1 = k then (k, v) :: ps else p :: dictSet ps k v

/-- Sequential dict assignments. -/
def applyAssigns (r : Row) (fs : List (String × Cell)) : Row :=
  fs.foldl (fun acc p => dictSet acc p.1 p.2) r

/-- The row `_parse_one_ixbrl` starts from:
`{c: None for c in TARGET_COLUMNS}` then `run_code`, `zip_url`,
`file_type = "ixbrl-htm"`. -/
def baseRow (run_code zip_url : String) : Row :=
  dictSet (dictSet (dictSet (TARGET_COLUMNS.map (fun c => (c, (none : Cell))))
    "run_code" (some run_code)) "zip_url" (some zip_url)) "file_type" (some "ixbrl-htm")

/-- The observable behaviour of the `try` block of `_parse_one_ixbrl` on one
document: either it runs to completion having performed a sequence of
`row[field] = value` assignments, or it raises after a prefix of them, in
which case the handler performs `row["error"] = msg`.  In the source every
assigned field name is a `TARGET_COLUMNS` literal and `"error"` is assigned
only by the handler; theorems carry those facts as hypotheses. -/
inductive ParseOutcome : Type where
  | parsed : List (String × Cell) → ParseOutcome
  | failed : List (String × Cell) → String → ParseOutcome
deriving DecidableEq

/-- The field assignments an outcome performed inside the `try` block. -/
def ParseOutcome.assigns : ParseOutcome → List (String × Cell)
  | .parsed fs => fs
  | .failed fs _ => fs

/-- `scripts/ixbrl_fetch_daily.py :: _parse_one_ixbrl`. -/
def parse_one_ixbrl (o : ParseOutcome) (run_code zip_url : String) : Row :=
  match o with
  | .parsed fs => applyAssigns (baseRow run_code zip_url) fs
  | .failed fs msg => dictSet (applyAssigns (baseRow run_code zip_url) fs) "error" (some msg)

/-- A dataframe: a column list plus dict-shaped rows. -/
structure Frame where
  cols : List String
  rows : List Row
deriving DecidableEq

/-- Column resolution of `pd.DataFrame(rows)`: the union of the rows' keys
in first-seen order. -/
def unionKeys (rows : List Row) : List String :=
  rows.foldl (fun acc r => acc ++ (r.map Prod.fst).filter (fun c => decide (c ∉ acc))) []

/-- `pd.DataFrame(rows)`. -/
def pdDataFrame (rows : List Row) : Frame :=
  { cols := unionKeys rows, rows := rows }

/-- Column selection `df[cols]`: fails (KeyError) unless every requested
column exists; on success each row is reprojected onto `cols` in order. -/
def selectCols (fr : Frame) (cols : List String) : Option Frame :=
  if cols.all (fun c => decide (c ∈ fr.cols)) then
    some { cols := cols,
           rows := fr.rows.map (fun r => cols.map (fun c => (c, (rowLookup r c).getD none))) }
  else none

/-- `scripts/ixbrl_fetch_daily.py :: _parse_daily_zip`, given the parse
outcome of each inner document the walker yielded: no documents produce the
well-formed empty frame over `TARGET_COLUMNS`; otherwise
`pd.DataFrame(rows)[TARGET_COLUMNS]`.  (The surrounding per-document
`try/except` never fires, `_parse_one_ixbrl` already catching every
exception; the trailing diagnostics only print.) -/
def parse_daily_zip (outcomes : List ParseOutcome) (zip_url run_code : String) :
    Option Frame :=
  match outcomes with
  | [] => some { cols := TARGET_COLUMNS, rows := [] }
  | _ =>
    selectCols (pdDataFrame (outcomes.map (fun o => parse_one_ixbrl o run_code zip_url)))
      TARGET_COLUMNS

/-!
## Entity-key normalizers
(`scripts/metadata_bulk_api_fill.py :: norm_ixbrl_id` and
`scripts/metadata_snapshot_and_fill.py :: canon_company_number`)
-/

/-- `scripts/metadata_bulk_api_fill.py :: norm_ixbrl_id`: digits of the
stripped string, leading zeros removed, `None` when nothing remains. -/
def norm_ixbrl_id (x : Option String) : Option String :=
  match x with
  | none => none
  | some raw =>
    let digits := (pyStrip raw.toList).filter Char.isDigit
    let stripped := digits.dropWhile (fun c => c = '0')
    if stripped = [] then none else some (String.mk stripped)

/-- A regex word character for `\b` (ASCII inputs). -/
def isWordChar (c : Char) : Bool := c.isAlphanum || c = '_'

/-- Exactly `n` digits from the front: `\d{n}`. -/
def takeExactDigits : Nat → List Char → Option (List Char × List Char)
  | 0, rest => some ([], rest)
  | _ + 1, [] => none
  | n + 1, c :: cs =>
    if c.isDigit then (takeExactDigits n cs).map (fun p => (c :: p.1, p.2)) else none

/-- The trailing `\b` of `_COMP_RE`: end of string or a non-word char. -/
def boundaryAfter (rest : List Char) : Bool :=
  match rest with
  | [] => true
  | c :: _ => ¬ isWordChar c

/-- First alternative `[A-Z]{2}\d{6}` with its trailing boundary. -/
def altLetters (l : List Char) : Option (List Char) :=
  match l with
  | a :: b :: rest =>
    if a.isUpper ∧ b.isUpper then
      match takeExactDigits 6 rest with
      | some (ds, rest') =>
        if boundaryAfter rest' then some (a :: b :: ds) else none
      | none => none
    else none
  | _ => none

/-- `\d{n,}`-piece helper: exactly `n` digits then the trailing boundary. -/
def tryDigits (n : Nat) (l : List Char) : Option (List Char) :=
  match takeExactDigits n l with
  | some (ds, rest) => if boundaryAfter rest then some ds else none
  | none => none

/-- Second alternative `\d{6,8}` (greedy, backtracking 8 → 7 → 6 against
the trailing `\b`). -/
def altDigits (l : List Char) : Option (List Char) :=
  (tryDigits 8 l).orElse (fun _ =>
    (tryDigits 7 l).orElse (fun _ => tryDigits 6 l))

/-- `_COMP_RE.search`: scan positions left to right; at each position the
leading `\b` requires the previous character (if any) to be a non-word
character, then the alternatives are tried in pattern order. -/
def compSearch : Option Char → List Char → Option (List Char)
  | _, [] => none
  | pre, c :: cs =>
    let bOK := match pre with
               | none => true
               | some p => ¬ isWordChar p
    match (if bOK then (altLetters (c :: cs)).orElse (fun _ => altDigits (c :: cs))
           else none) with
    | some m => some m
    | none => compSearch (some c) cs

/-- Python `str.zfill(8)` on a digit string. -/
def zfill8 (cs : List Char) : List Char :=
  List.replicate (8 - cs.length) '0' ++ cs

/-- `scripts/metadata_snapshot_and_fill.py :: canon_company_number`:
uppercase the stripped input, find the first `AA999999` or 6–8-digit run
bounded by word boundaries, zero-pad an all-digit match to width 8. -/
def canon_company_number (x : Option String) : Option String :=
  match x with
  | none => none
  | some raw =>
    let s := (pyStrip raw.toList).map Char.toUpper
    match compSearch none s with
    | none => none
    | some cn =>
      if cn.all Char.isDigit then some (String.mk (zfill8 cn))
      else some (String.mk cn)

/-!
## Concrete instances used by examples and counterexamples
-/

/-- The identity cell transform: instantiating the date normalization of
`append_parquet` when concrete values are already ISO strings. -/
def idCell : String → Cell → Cell := fun _ v => v

/-- A document holding a single *duration*-typed fact whose tag is a
synonym of the balance-sheet field `current_assets`. -/
def exDurFact : IFact :=
  { name := "frs102:CurrentAssets", value := some "100", decimals := none,
    period := some { instant := none, endDate := some ⟨2024, 12, 31⟩ } }

def exDurDoc : Doc := { facts := [exDurFact] }

/-- A document with both an instant and a duration candidate for
`current_assets`. -/
def exInstFact : IFact :=
  { name := "uk-gaap:CurrentAssets", value := some "70", decimals := none,
    period := some { instant := some ⟨2024, 12, 31⟩, endDate := none } }

def exMixedDoc : Doc := { facts := [exDurFact, exInstFact] }

/-- A leaf document two containers deep: `a.zip` → `b.zip` → `c.htm`. -/
def exLeafHtm : ZipEntry := .ent "c.htm" "X" .notZip

def exInnerZip : ZipEntry := .ent "b.zip" "zz" (.zipOf [exLeafHtm])

def exOuterZip : ZipEntry := .ent "a.zip" "zzz" (.zipOf [exInnerZip])

/-- A parsed financial row whose extraction yielded no entity key. -/
def exRowNoKey : Row :=
  [("companies_house_registered_number", none),
   ("balance_sheet_date", some "2024-01-01"),
   ("turnover_gross_operating_revenue", some "500")]

/-- The dedup keys the bulk parser passes for a batch with balance-sheet
dates present. -/
def exKeys : List String := ["companies_house_registered_number", "balance_sheet_date"]

/-- Old and new rows of the spec's dedup example: same entity and date,
turnover 100 superseded by 150. -/
def exOldTurnover : Row :=
  [("entity_key", some "123"), ("balance_sheet_date", some "2024-01-01"),
   ("turnover", some "100")]

def exNewTurnover : Row :=
  [("entity_key", some "123"), ("balance_sheet_date", some "2024-01-01"),
   ("turnover", some "150")]

/-!
## Theorems

First the generic dedup lemmas underlying the ledger claims, then one
theorem per specification claim.
-/

theorem dedupLast_nil (key : α → κ) : dedupLast key [] = [] := rfl

theorem dedupLast_cons (key : α → κ) (x : α) (xs : List α) :
    dedupLast key (x :: xs) =
      if key x ∈ xs.map key then dedupLast key xs else x :: dedupLast key xs := rfl

theorem dedupLast_sublist (key : α → κ) :
    ∀ l : List α, List.Sublist (dedupLast key l) l
  | [] => List.Sublist.refl []
  | x :: xs => by
    rw [dedupLast_cons]
    by_cases h : key x ∈ xs.map key
    · rw [if_pos h]
      exact (dedupLast_sublist key xs).cons x
    · rw [if_neg h]
      exact (dedupLast_sublist key xs).cons₂ x

theorem mem_of_mem_dedupLast {key : α → κ} {l : List α} {x : α}
    (h : x ∈ dedupLast key l) : x ∈ l :=
  (dedupLast_sublist key l).subset h

theorem mem_keys_dedupLast (key : α → κ) (k : κ) :
    ∀ l : List α, k ∈ (dedupLast key l).map key ↔ k ∈ l.map key
  | [] => Iff.rfl
  | x :: xs => by
    rw [dedupLast_cons]
    by_cases h : key x ∈ xs.map key
    · rw [if_pos h, List.map_cons, List.mem_cons, mem_keys_dedupLast key k xs]
      constructor
      · exact Or.inr
      · rintro (rfl | hk)
        · exact h
        · exact hk
    · rw [if_neg h, List.map_cons, List.map_cons, List.mem_cons, List.mem_cons,
        mem_keys_dedupLast key k xs]

theorem keys_nodup_dedupLast (key : α → κ) :
    ∀ l : List α, ((dedupLast key l).map key).Nodup
  | [] => List.nodup_nil
  | x :: xs => by
    rw [dedupLast_cons]
    by_cases h : key x ∈ xs.map key
    · rw [if_pos h]
      exact keys_nodup_dedupLast key xs
    · rw [if_neg h, List.map_cons, List.nodup_cons]
      refine ⟨fun hmem => h ?_, keys_nodup_dedupLast key xs⟩
      exact (mem_keys_dedupLast key (key x) xs).mp hmem

/-- Splitting a dedup of an append: rows of the left part survive iff their
key never recurs on the right, and the right part dedups independently. -/
theorem dedupLast_append (key : α → κ) :
    ∀ l₁ l₂ : List α,
      dedupLast key (l₁ ++ l₂) =
        (dedupLast key l₁).filter (fun x => decide (key x ∉ l₂.map key)) ++ dedupLast key l₂
  | [], l₂ => by
    rw [List.nil_append, dedupLast_nil, List.filter_nil, List.nil_append]
  | x :: xs, l₂ => by
    rw [List.cons_append, dedupLast_cons, dedupLast_cons]
    by_cases h : key x ∈ xs.map key
    · have hx : key x ∈ (xs ++ l₂).map key := by
        rw [List.map_append, List.mem_append]
        exact Or.inl h
      rw [if_pos hx, if_pos h]
      exact dedupLast_append key xs l₂
    · rw [if_neg h]
      by_cases h₂ : key x ∈ l₂.map key
      · have hx : key x ∈ (xs ++ l₂).map key := by
          rw [List.map_append, List.mem_append]
          exact Or.inr h₂
        rw [if_pos hx, dedupLast_append key xs l₂, List.filter_cons]
        have hdec : (decide (key x ∉ l₂.map key)) = false := by
          simp [h₂]
        rw [hdec]
        simp only [Bool.false_eq_true, if_false]
      · have hx : key x ∉ (xs ++ l₂).map key := by
          rw [List.map_append, List.mem_append]
          rintro (hc | hc)
          · exact h hc
          · exact h₂ hc
        rw [if_neg hx, dedupLast_append key xs l₂, List.filter_cons]
        have hdec : (decide (key x ∉ l₂.map key)) = true := by
          simp [h₂]
        rw [hdec]
        simp only [if_true, List.cons_append]

theorem dedupLast_of_keys_nodup {key : α → κ} :
    ∀ {l : List α}, (l.map key).Nodup → dedupLast key l = l
  | [], _ => rfl
  | x :: xs, h => by
    rw [List.map_cons, List.nodup_cons] at h
    rw [dedupLast_cons, if_neg h.1, dedupLast_of_keys_nodup h.2]

/-- The rows of `dedupLast key r` all carry keys occurring in `r`, so
filtering them down to keys *not* in `r` leaves nothing. -/
theorem filter_dedupLast_self (key : α → κ) (r : List α) :
    (dedupLast key r).filter (fun x => decide (key x ∉ r.map key)) = [] := by
  apply List.filter_eq_nil_iff.mpr
  intro x hx
  simp only [decide_eq_true_eq, not_not]
  exact List.mem_map.mpr ⟨x, mem_of_mem_dedupLast hx, rfl⟩

/-- Core idempotence: re-merging the already merged state with the same new
rows reproduces it exactly. -/
theorem dedupLast_merge_idem (key : α → κ) (s r : List α) :
    dedupLast key (dedupLast key (s ++ r) ++ r) = dedupLast key (s ++ r) := by
  have hM : dedupLast key (dedupLast key (s ++ r) ++ r) =
      (dedupLast key (dedupLast key (s ++ r))).filter
        (fun x => decide (key x ∉ r.map key)) ++ dedupLast key r :=
    dedupLast_append key _ r
  rw [dedupLast_of_keys_nodup (keys_nodup_dedupLast key (s ++ r))] at hM
  rw [hM, dedupLast_append key s r, List.filter_append, List.filter_filter]
  rw [filter_dedupLast_self key r]
  simp only [List.append_nil]
  congr 1
  apply List.filter_congr
  intro x _
  simp

/-- The survivor for each key is the last row with that key in append
order: filtering the dedup down to one key yields exactly the last matching
element (empty when the key never occurs). -/
theorem dedupLast_filter_key (key : α → κ) (k : κ) :
    ∀ l : List α,
      (dedupLast key l).filter (fun x => decide (key x = k)) =
        (l.filter (fun x => decide (key x = k))).getLast?.toList
  | [] => rfl
  | x :: xs => by
    rw [dedupLast_cons]
    by_cases h : key x ∈ xs.map key
    · rw [if_pos h, dedupLast_filter_key key k xs, List.filter_cons]
      by_cases hk : key x = k
      · have hc : (decide (key x = k)) = true := by simp [hk]
        rw [hc]
        simp only [if_true]
        have hne : xs.filter (fun z => decide (key z = k)) ≠ [] := by
          obtain ⟨y, hy, hyk⟩ := List.mem_map.mp h
          intro hnil
          have hmem : y ∈ xs.filter (fun z => decide (key z = k)) := by
            apply List.mem_filter.mpr
            refine ⟨hy, by simp [hyk, hk]⟩
          rw [hnil] at hmem
          exact absurd hmem (List.not_mem_nil y)
        obtain ⟨a, as, ha⟩ := List.exists_cons_of_ne_nil hne
        rw [ha, List.getLast?_cons_cons]
      · have hc : (decide (key x = k)) = false := by simp [hk]
        rw [hc]
        simp only [Bool.false_eq_true, if_false]
    · rw [if_neg h, List.filter_cons, List.filter_cons]
      by_cases hk : key x = k
      · have hc : (decide (key x = k)) = true := by simp [hk]
        rw [hc]
        simp only [if_true]
        have hnil : xs.filter (fun z => decide (key z = k)) = [] := by
          apply List.filter_eq_nil_iff.mpr
          intro y hy
          simp only [decide_eq_true_eq]
          intro hyk
          exact h (List.mem_map.mpr ⟨y, hy, by rw [hyk, hk]⟩)
        have hnil' : (dedupLast key xs).filter (fun z => decide (key z = k)) = [] := by
          rw [dedupLast_filter_key key k xs, hnil]
          rfl
        rw [hnil, hnil']
        rfl
      · have hc : (decide (key x = k)) = false := by simp [hk]
        rw [hc]
        simp only [Bool.false_eq_true, if_false]
        exact dedupLast_filter_key key k xs

/-- With no fact carrying a tag of the synonym list, the resolver yields
the none-triple. -/
theorem pick_fact_of_no_match (doc : Doc) (qnames : List String) (prefer : PType)
    (h : ∀ f ∈ doc.facts, f.name ∉ qnames) :
    pick_fact doc qnames prefer = (none, none, none) := by
  have hc : doc.facts.filter (fun g => decide (g.name ∈ qnames)) = [] :=
    List.filter_eq_nil_iff.mpr (fun f hf => by simpa using h f hf)
  simp [pick_fact, hc]

/-- When matching-tag candidates of the preferred period type exist, the
resolver takes the first of them in document order. -/
theorem pick_fact_head_preferred (doc : Doc) (qnames : List String) (prefer : PType)
    (f : IFact) (fs : List IFact)
    (h : (doc.facts.filter (fun g => decide (g.name ∈ qnames))).filter
        (fun g => decide (period_type g = prefer)) = f :: fs) :
    pick_fact doc qnames prefer =
      (scale_by_decimals (to_float f.value) f.decimals,
       (period_dates f).1, (period_dates f).2) := by
  simp only [pick_fact, h, List.cons_append]

/-- When matching-tag candidates exist but none has the preferred period
type, the resolver still selects the first candidate — the period
preference is a sort key, not a filter. -/
theorem pick_fact_no_preferred (doc : Doc) (qnames : List String) (prefer : PType)
    (f : IFact) (fs : List IFact)
    (hc : doc.facts.filter (fun g => decide (g.name ∈ qnames)) = f :: fs)
    (hp : (doc.facts.filter (fun g => decide (g.name ∈ qnames))).filter
        (fun g => decide (period_type g = prefer)) = []) :
    pick_fact doc qnames prefer =
      (scale_by_decimals (to_float f.value) f.decimals,
       (period_dates f).1, (period_dates f).2) := by
  have hall : ∀ g ∈ doc.facts.filter (fun g => decide (g.name ∈ qnames)),
      (decide (¬ period_type g = prefer)) = true := by
    intro g hg
    have hne := List.filter_eq_nil_iff.mp hp g hg
    simpa using hne
  have hrest : (doc.facts.filter (fun g => decide (g.name ∈ qnames))).filter
      (fun g => decide (¬ period_type g = prefer)) = f :: fs := by
    rw [List.filter_eq_self.mpr hall, hc]
  simp only [pick_fact, hp, hrest, List.nil_append]

/-- C1 counterexample: for the balance-sheet field `current_assets`, a
document whose only matching-tag fact is duration-typed (so it has no
instant-typed candidate) does *not* resolve to `none` — the duration
fact's value `100` is returned, because `_pick_fact` merely sorts the
preferred period type first instead of filtering by it. -/
theorem balance_sheet_duration_selected_ce :
    (exDurDoc.facts.filter (fun f =>
        decide (f.name ∈ conceptsGet "current_assets" ∧
          period_type f = PType.instant)) = [])
  ∧ (get_number exDurDoc "current_assets").1 = some 100 := by
  refine ⟨by decide, by decide⟩

/-- C1 amended: for a balance-sheet (non-P&L) field the resolver returns
`none` when *no* fact carries a synonym tag at all; when instant-typed
candidates exist the first one in document order is selected; but when
only duration-typed candidates exist, the first candidate is selected
anyway — instant is a preference, not a requirement. -/
theorem resolver_period_preference (doc : Doc) (field : String)
    (hfield : field ∉ PANDL_LOGICALS) :
    ((∀ f ∈ doc.facts, f.name ∉ conceptsGet field) →
        get_number doc field = (none, none, none))
  ∧ (∀ f fs, (doc.facts.filter (fun g => decide (g.name ∈ conceptsGet field))).filter
        (fun g => decide (period_type g = PType.instant)) = f :: fs →
      get_number doc field =
        (scale_by_decimals (to_float f.value) f.decimals,
         (period_dates f).1, (period_dates f).2))
  ∧ (∀ f fs, doc.facts.filter (fun g => decide (g.name ∈ conceptsGet field)) = f :: fs →
      (doc.facts.filter (fun g => decide (g.name ∈ conceptsGet field))).filter
        (fun g => decide (period_type g = PType.instant)) = [] →
      get_number doc field =
        (scale_by_decimals (to_float f.value) f.decimals,
         (period_dates f).1, (period_dates f).2)) := by
  have hg : get_number doc field = pick_fact doc (conceptsGet field) PType.instant := by
    simp [get_number, hfield]
  refine ⟨fun h => ?_, fun f fs h => ?_, fun f fs hc hp => ?_⟩
  · rw [hg]
    exact pick_fact_of_no_match _ _ _ h
  · rw [hg]
    exact pick_fact_head_preferred _ _ _ f fs h
  · rw [hg]
    exact pick_fact_no_preferred _ _ _ f fs hc hp

theorem resolver_period_preference_witness :
    ("current_assets" ∉ PANDL_LOGICALS)
  ∧ ((exMixedDoc.facts.filter (fun g =>
        decide (g.name ∈ conceptsGet "current_assets"))).filter
        (fun g => decide (period_type g = PType.instant)) = [exInstFact])
  ∧ get_number exMixedDoc "current_assets" =
      (scale_by_decimals (to_float exInstFact.value) exInstFact.decimals,
       (period_dates exInstFact).1, (period_dates exInstFact).2) := by
  refine ⟨by decide, by decide, ?_⟩
  exact (resolver_period_preference exMixedDoc "current_assets" (by decide)).2.1
    exInstFact [] (by decide)

/-- C2: the ledger merge is idempotent — merging the already-merged
partition with the same batch of new rows again, under the same dedup
keys, reproduces the partition content exactly (even as an ordered list,
hence certainly as a row set). -/
theorem merge_idempotent (normCell : String → Cell → Cell)
    (S R : List Row) (K : List String) :
    append_parquet normCell (.ok (append_parquet normCell (.ok S) R K)) R K =
      append_parquet normCell (.ok S) R K := by
  simp only [append_parquet]
  exact dedupLast_merge_idem (rowKey K) S (R.map (normalizeRow normCell))

/-- C3: a merge result holds at most one row per dedup-key value, and the
surviving row of each key is exactly the last row carrying that key in
append order (old rows then new rows), so a new row wins over an old row
with the same key; instantiated on the spec's example, old turnover 100 is
superseded by new turnover 150. -/
theorem merge_dedup_last_wins (normCell : String → Cell → Cell)
    (S R : List Row) (K : List String) (k : List (Option Cell)) :
    ((append_parquet normCell (.ok S) R K).map (rowKey K)).Nodup
  ∧ (append_parquet normCell (.ok S) R K).filter (fun r => decide (rowKey K r = k)) =
      ((S ++ R.map (normalizeRow normCell)).filter
        (fun r => decide (rowKey K r = k))).getLast?.toList
  ∧ append_parquet idCell (.ok [exOldTurnover]) [exNewTurnover]
      ["entity_key", "balance_sheet_date"] = [exNewTurnover] := by
  refine ⟨?_, ?_, by decide⟩
  · simp only [append_parquet]
    exact keys_nodup_dedupLast (rowKey K) _
  · simp only [append_parquet]
    exact dedupLast_filter_key (rowKey K) k _

/-- C8: a prior snapshot whose read raises is treated exactly as an empty
prior snapshot — the merge does not fail, and publishes precisely the new
rows deduplicated by the given keys. -/
theorem corrupt_prior_merges_as_empty (normCell : String → Cell → Cell)
    (e : String) (R : List Row) (K : List String) :
    append_parquet normCell (.error e) R K = append_parquet normCell (.ok []) R K
  ∧ append_parquet normCell (.error e) R K =
      dedupLast (rowKey K) (R.map (normalizeRow normCell)) := by
  constructor
  · simp only [append_parquet]
    rw [List.nil_append]
  · simp only [append_parquet]

/-- C9 counterexample: the claim says a record that failed to yield an
entity key is dropped before the merge; in fact `_parse_one_ixbrl` leaves
`companies_house_registered_number` as `None` when no registered-number
fact is present, and the bulk pipeline passes such a row straight to
`append_parquet`, where it survives the merge with a null key. -/
theorem missing_key_row_reaches_merge_ce :
    rowLookup (parse_one_ixbrl (.parsed []) "2025-01" "http://e/x.zip")
        "companies_house_registered_number" = some none
  ∧ append_parquet idCell (.ok []) [exRowNoKey] exKeys = [exRowNoKey]
  ∧ rowLookup exRowNoKey "companies_house_registered_number" = some none := by
  refine ⟨by decide, by decide, by decide⟩

/-- C9 amended: records lacking an entity key are *not* dropped — every
row of the new batch, keyed or not, leaves a surviving representative with
its dedup-key value (a null entity key included) in the merged partition. -/
theorem new_rows_never_dropped (normCell : String → Cell → Cell)
    (S R : List Row) (K : List String) (r : Row) (hr : r ∈ R) :
    ∃ r', r' ∈ append_parquet normCell (.ok S) R K ∧
      rowKey K r' = rowKey K (normalizeRow normCell r) := by
  simp only [append_parquet]
  have hk : rowKey K (normalizeRow normCell r) ∈
      ((S ++ R.map (normalizeRow normCell)).map (rowKey K)) := by
    rw [List.map_append, List.mem_append]
    refine Or.inr ?_
    rw [List.map_map]
    exact List.mem_map.mpr ⟨r, hr, rfl⟩
  have hmem := (mem_keys_dedupLast (rowKey K) _ _).mpr hk
  obtain ⟨r', hr', hkey⟩ := List.mem_map.mp hmem
  exact ⟨r', hr', hkey⟩

theorem new_rows_never_dropped_witness :
    exRowNoKey ∈ [exRowNoKey] ∧
    ∃ r', r' ∈ append_parquet idCell (.ok []) [exRowNoKey] exKeys ∧
      rowKey exKeys r' = rowKey exKeys (normalizeRow idCell exRowNoKey) :=
  ⟨List.mem_singleton.mpr rfl,
   new_rows_never_dropped idCell [] [exRowNoKey] exKeys exRowNoKey
     (List.mem_singleton.mpr rfl)⟩

/-- C4 counterexample: the walker descends exactly one container level,
not arbitrarily many — a leaf `.htm` two zips deep (`a.zip::b.zip::c.htm`)
is *not* yielded when walking the outer archive, although the very same
walker yields it when started one level further in. -/
theorem walker_depth_two_ce :
    iter_ixbrl_files_from_zip [exOuterZip] = []
  ∧ iter_ixbrl_files_from_zip [exInnerZip] = [("b.zip::c.htm", "X")] := by
  refine ⟨by decide, by decide⟩

/-- C4 amended: the walker yields every parseable leaf document at the top
level and one container level down; a nested blob that fails to open as a
zip contributes nothing and aborts nothing (the surrounding entries are
still processed); deeper nesting is not descended. -/
theorem walker_one_level (entries pre post : List ZipEntry) (nm bs : String) :
    (isDocName nm = false →
      iter_ixbrl_files_from_zip (pre ++ [ZipEntry.ent nm bs ZipData.notZip] ++ post) =
        iter_ixbrl_files_from_zip pre ++ iter_ixbrl_files_from_zip post)
  ∧ (∀ e ∈ entries, isDocName e.name = true →
      (e.name, e.bytes) ∈ iter_ixbrl_files_from_zip entries)
  ∧ (∀ e ∈ entries, ∀ inner, e.payload = ZipData.zipOf inner →
      isDocName e.name = false → isZipName e.name = true →
      ∀ ie ∈ inner, isDocName ie.name = true →
        (e.name ++ "::" ++ ie.name, ie.bytes) ∈ iter_ixbrl_files_from_zip entries) := by
  refine ⟨?_, ?_, ?_⟩
  · intro h
    by_cases hz : isZipName nm <;>
      simp [iter_ixbrl_files_from_zip, ZipEntry.name, ZipEntry.payload, h, hz]
  · intro e he hd
    apply List.mem_flatMap.mpr
    exact ⟨e, he, by simp [hd]⟩
  · intro e he inner hpay hd hz ie hie hdoc
    apply List.mem_flatMap.mpr
    refine ⟨e, he, ?_⟩
    simp only [hd, Bool.false_eq_true, if_false, hz, if_true, hpay]
    apply List.mem_filterMap.mpr
    exact ⟨ie, hie, by simp [hdoc]⟩

theorem walker_one_level_witness :
    (isDocName "bad.zip" = false)
  ∧ iter_ixbrl_files_from_zip
      ([exLeafHtm] ++ [ZipEntry.ent "bad.zip" "junk" ZipData.notZip] ++ [exInnerZip]) =
      iter_ixbrl_files_from_zip [exLeafHtm] ++ iter_ixbrl_files_from_zip [exInnerZip]
  ∧ (exLeafHtm.name, exLeafHtm.bytes) ∈ iter_ixbrl_files_from_zip [exLeafHtm]
  ∧ (exInnerZip.name ++ "::" ++ exLeafHtm.name, exLeafHtm.bytes) ∈
      iter_ixbrl_files_from_zip [exInnerZip] := by
  refine ⟨by decide, ?_, ?_, ?_⟩
  · exact (walker_one_level [] [exLeafHtm] [exInnerZip] "bad.zip" "junk").1 (by decide)
  · exact (walker_one_level [exLeafHtm] [] [] "x" "y").2.1 exLeafHtm
      (List.mem_singleton.mpr rfl) (by decide)
  · exact (walker_one_level [exInnerZip] [] [] "x" "y").2.2 exInnerZip
      (List.mem_singleton.mpr rfl) [exLeafHtm] rfl (by decide) (by decide)
      exLeafHtm (List.mem_singleton.mpr rfl) (by decide)

/-- C5: routing is deterministic and total — the partition comes from the
first present date among `balance_sheet_date`, `period_end` and the
caller-supplied fallback, with half `H1` iff the month is at most 6
(agreeing with `half_from_date`); a record with only
`period_end = 2025-07-15` routes to `(2025, H2)`, and a record with no
dates routes to the fallback's partition rather than being dropped. -/
theorem routing_partition (bs pe : Option SDate) (fb d : SDate) :
    routePartition (some d) pe fb = (d.year, if d.month ≤ 6 then "H1" else "H2")
  ∧ routePartition none (some d) fb = (d.year, if d.month ≤ 6 then "H1" else "H2")
  ∧ routePartition none none fb = (fb.year, if fb.month ≤ 6 then "H1" else "H2")
  ∧ half_from_date (some (routeRef bs pe fb)) = some ((routePartition bs pe fb).2)
  ∧ routePartition none (some ⟨2025, 7, 15⟩) fb = (2025, "H2") := by
  refine ⟨rfl, rfl, rfl, ?_, rfl⟩
  simp only [half_from_date, routePartition]
  by_cases h : (routeRef bs pe fb).month ≤ 6 <;> simp [h]

/-- C6: the amount parser and scaler — `(1,234.50)` parses to `-1234.50`,
`£2,000` to `2000`, empty and non-numeric residue to `none` (totally, no
exception path exists), and `scale` multiplies by `10^(-decimals)` exactly
when `decimals` is negative, passing the value through when `decimals` is
non-negative or absent; `scale(5, -3) = 5000`. -/
theorem amount_parsing_and_scaling (v : ℚ) (d : Int) :
    to_float (some "(1,234.50)") = some (-1234.5)
  ∧ to_float (some "£2,000") = some 2000
  ∧ to_float (some "") = none
  ∧ to_float (some "abc") = none
  ∧ scale_by_decimals (some 5) (some (-3)) = some 5000
  ∧ scale_by_decimals none (some d) = none
  ∧ scale_by_decimals (some v) none = some v
  ∧ (d < 0 → scale_by_decimals (some v) (some d) = some (v * (10 : ℚ) ^ (-d).toNat))
  ∧ (0 ≤ d → scale_by_decimals (some v) (some d) = some v) := by
  refine ⟨?_, by decide, by decide, by decide, ?_, rfl, rfl, ?_, ?_⟩
  · have h : to_float (some "(1,234.50)") = some (-(mkRat 123450 100)) := by decide
    rw [h, Rat.mkRat_eq_div]
    norm_num
  · have h : scale_by_decimals (some 5) (some (-3)) = some ((5 : ℚ) * 10 ^ (3 : ℕ)) := rfl
    rw [h]
    norm_num
  · intro hd
    simp [scale_by_decimals, hd]
  · intro hd
    simp only [scale_by_decimals]
    rw [if_neg (by omega)]

theorem amount_parsing_and_scaling_witness :
    ((-3 : Int) < 0) ∧ ((0 : Int) ≤ 2)
  ∧ scale_by_decimals (some 7) (some (-3)) = some (7 * (10 : ℚ) ^ ((-(-3 : Int)).toNat))
  ∧ scale_by_decimals (some 7) (some 2) = some 7 := by
  refine ⟨by decide, by decide, ?_, ?_⟩
  · exact (amount_parsing_and_scaling 7 (-3)).2.2.2.2.2.2.2.1 (by decide)
  · exact (amount_parsing_and_scaling 7 2).2.2.2.2.2.2.2.2 (by decide)

/-- C7 counterexample: the claim says a single normalization rule keys
both record kinds; but the registry-side `canon_company_number` (cited by
the claim itself) maps `"88092"` to `None` while the financial-side
`norm_ixbrl_id` maps it to `"88092"` — the two keying rules disagree. -/
theorem key_norm_single_rule_ce :
    norm_ixbrl_id (some "88092") = some "88092"
  ∧ canon_company_number (some "88092") = none := by
  refine ⟨by decide, by decide⟩

/-- C7 amended: the financial-side normalizer `norm_ixbrl_id` does map
`"00088092"`, `"88092"` and `" 88,092 "` all to `"88092"` (digits only,
leading zeros stripped, `none` when empty); but it is not the single join
rule: the registry side keys by `canon_company_number`, which zero-pads
all-digit numbers to width 8 (`"00088092"`) and rejects digit runs shorter
than six (`" 88,092 "` ↦ `none`). -/
theorem key_normalization_two_rules :
    norm_ixbrl_id (some "00088092") = some "88092"
  ∧ norm_ixbrl_id (some "88092") = some "88092"
  ∧ norm_ixbrl_id (some " 88,092 ") = some "88092"
  ∧ canon_company_number (some "00088092") = some "00088092"
  ∧ canon_company_number (some " 88,092 ") = none := by
  refine ⟨by decide, by decide, by decide, by decide, by decide⟩

theorem rowLookup_cons (p : String × Cell) (ps : Row) (c : String) :
    rowLookup (p :: ps) c = if p.1 = c then some p.2 else rowLookup ps c := by
  by_cases h : p.1 = c <;> simp [rowLookup, List.find?_cons, h]

theorem rowLookup_dictSet_self (r : Row) (k : String) (v : Cell) :
    rowLookup (dictSet r k v) k = some v := by
  induction r with
  | nil => simp [dictSet, rowLookup_cons]
  | cons p ps ih =>
    by_cases h : p.1 = k
    · simp [dictSet, h, rowLookup_cons]
    · rw [dictSet, if_neg h, rowLookup_cons, if_neg h]
      exact ih

theorem rowLookup_dictSet_ne (r : Row) (k c : String) (v : Cell) (h : c ≠ k) :
    rowLookup (dictSet r k v) c = rowLookup r c := by
  induction r with
  | nil =>
    rw [show dictSet [] k v = [(k, v)] from rfl, rowLookup_cons,
      if_neg (fun hk => h hk.symm)]
  | cons p ps ih =>
    by_cases hp : p.1 = k
    · rw [dictSet, if_pos hp, rowLookup_cons, if_neg (fun hk => h hk.symm),
        rowLookup_cons, if_neg]
      rw [hp]
      exact fun hk => h hk.symm
    · rw [dictSet, if_neg hp, rowLookup_cons, rowLookup_cons]
      by_cases hc : p.1 = c
      · rw [if_pos hc, if_pos hc]
      · rw [if_neg hc, if_neg hc]
        exact ih

theorem keys_dictSet_of_mem (r : Row) (k : String) (v : Cell)
    (hk : k ∈ r.map Prod.fst) :
    (dictSet r k v).map Prod.fst = r.map Prod.fst := by
  induction r with
  | nil => exact absurd hk (List.not_mem_nil k)
  | cons p ps ih =>
    by_cases hp : p.1 = k
    · rw [dictSet, if_pos hp, List.map_cons, List.map_cons, hp]
    · rw [dictSet, if_neg hp, List.map_cons, List.map_cons]
      congr 1
      apply ih
      rw [List.map_cons] at hk
      rcases List.mem_cons.mp hk with h | h
      · exact absurd h.symm hp
      · exact h

theorem applyAssigns_cons (r : Row) (p : String × Cell) (fs : List (String × Cell)) :
    applyAssigns r (p :: fs) = applyAssigns (dictSet r p.1 p.2) fs := rfl

theorem rowLookup_applyAssigns_of_not_mem (fs : List (String × Cell)) :
    ∀ (r : Row) (c : String), c ∉ fs.map Prod.fst →
      rowLookup (applyAssigns r fs) c = rowLookup r c := by
  induction fs with
  | nil => intro r c _; rfl
  | cons p fs ih =>
    intro r c hc
    rw [List.map_cons] at hc
    rw [applyAssigns_cons, ih _ c (fun hm => hc (List.mem_cons.mpr (Or.inr hm))),
      rowLookup_dictSet_ne r p.1 c p.2 (fun he => hc (List.mem_cons.mpr (Or.inl he)))]

theorem keys_applyAssigns (fs : List (String × Cell)) :
    ∀ r : Row, (∀ p ∈ fs, p.1 ∈ r.map Prod.fst) →
      (applyAssigns r fs).map Prod.fst = r.map Prod.fst := by
  induction fs with
  | nil => intro r _; rfl
  | cons p fs ih =>
    intro r h
    have hp := h p (List.mem_cons_self p fs)
    have hkeys := keys_dictSet_of_mem r p.1 p.2 hp
    rw [applyAssigns_cons, ih (dictSet r p.1 p.2) ?_, hkeys]
    intro q hq
    rw [hkeys]
    exact h q (List.mem_cons.mpr (Or.inr hq))

theorem keys_const_map (l : List String) :
    (l.map (fun c => (c, (none : Cell)))).map Prod.fst = l := by
  rw [List.map_map]
  exact List.map_id l

theorem rowLookup_const_map (l : List String) (c : String) (h : c ∈ l) :
    rowLookup (l.map (fun c => (c, (none : Cell)))) c = some none := by
  induction l with
  | nil => exact absurd h (List.not_mem_nil c)
  | cons a l ih =>
    rw [List.map_cons, rowLookup_cons]
    by_cases ha : a = c
    · rw [if_pos ha]
    · rw [if_neg ha]
      exact ih (List.mem_cons.mp h |>.resolve_left (fun he => ha he.symm))

theorem keys_baseRow (rc zu : String) :
    (baseRow rc zu).map Prod.fst = TARGET_COLUMNS := by
  have h0 := keys_const_map TARGET_COLUMNS
  have m1 : "run_code" ∈ (TARGET_COLUMNS.map (fun c => (c, (none : Cell)))).map Prod.fst := by
    rw [h0]; decide
  have h1 := keys_dictSet_of_mem _ "run_code" (some rc) m1
  have m2 : "zip_url" ∈ (dictSet (TARGET_COLUMNS.map (fun c => (c, (none : Cell))))
      "run_code" (some rc)).map Prod.fst := by
    rw [h1, h0]; decide
  have h2 := keys_dictSet_of_mem _ "zip_url" (some zu) m2
  have m3 : "file_type" ∈ (dictSet (dictSet (TARGET_COLUMNS.map (fun c => (c, (none : Cell))))
      "run_code" (some rc)) "zip_url" (some zu)).map Prod.fst := by
    rw [h2, h1, h0]; decide
  have h3 := keys_dictSet_of_mem _ "file_type" (some "ixbrl-htm") m3
  rw [baseRow, h3, h2, h1, h0]

theorem rowLookup_baseRow_none (rc zu c : String) (hc : c ∈ TARGET_COLUMNS)
    (h1 : c ≠ "run_code") (h2 : c ≠ "zip_url") (h3 : c ≠ "file_type") :
    rowLookup (baseRow rc zu) c = some none := by
  rw [baseRow, rowLookup_dictSet_ne _ _ _ _ h3, rowLookup_dictSet_ne _ _ _ _ h2,
    rowLookup_dictSet_ne _ _ _ _ h1]
  exact rowLookup_const_map TARGET_COLUMNS c hc

theorem keys_parse_one (o : ParseOutcome) (rc zu : String)
    (h : ∀ p ∈ o.assigns, p.1 ∈ TARGET_COLUMNS) :
    (parse_one_ixbrl o rc zu).map Prod.fst = TARGET_COLUMNS := by
  cases o with
  | parsed fs =>
    simp only [ParseOutcome.assigns] at h
    rw [parse_one_ixbrl, keys_applyAssigns fs (baseRow rc zu), keys_baseRow]
    intro p hp
    rw [keys_baseRow]
    exact h p hp
  | failed fs msg =>
    simp only [ParseOutcome.assigns] at h
    have hkeys : (applyAssigns (baseRow rc zu) fs).map Prod.fst = TARGET_COLUMNS := by
      rw [keys_applyAssigns fs (baseRow rc zu), keys_baseRow]
      intro p hp
      rw [keys_baseRow]
      exact h p hp
    rw [parse_one_ixbrl, keys_dictSet_of_mem _ "error" (some msg), hkeys]
    rw [hkeys]
    decide

theorem foldl_union_fixed (rows : List Row) :
    ∀ acc : List String, (∀ r ∈ rows, ∀ c ∈ r.map Prod.fst, c ∈ acc) →
      rows.foldl (fun acc r =>
        acc ++ (r.map Prod.fst).filter (fun c => decide (c ∉ acc))) acc = acc := by
  induction rows with
  | nil => intro acc _; rfl
  | cons r rows ih =>
    intro acc h
    rw [List.foldl_cons]
    have hnil : (r.map Prod.fst).filter (fun c => decide (c ∉ acc)) = [] := by
      apply List.filter_eq_nil_iff.mpr
      intro c hc
      simpa using h r (List.mem_cons_self r rows) c hc
    rw [hnil, List.append_nil]
    exact ih acc (fun r' hr' => h r' (List.mem_cons.mpr (Or.inr hr')))

theorem unionKeys_all_target (r : Row) (rs : List Row)
    (h : ∀ q ∈ r :: rs, q.map Prod.fst = TARGET_COLUMNS) :
    unionKeys (r :: rs) = TARGET_COLUMNS := by
  rw [unionKeys, List.foldl_cons, List.nil_append]
  have hr := h r (List.mem_cons_self r rs)
  have hfull : (r.map Prod.fst).filter (fun c => decide (c ∉ ([] : List String))) =
      TARGET_COLUMNS := by
    rw [List.filter_eq_self.mpr, hr]
    intro c _
    simp
  rw [hfull]
  apply foldl_union_fixed
  intro q hq c hc
  rw [h q (List.mem_cons.mpr (Or.inr hq))] at hc
  exact hc

/-- C10: `_parse_daily_zip` always produces a frame whose columns are
exactly `TARGET_COLUMNS` in order — for the empty run and for any mix of
clean and failed documents (every assignment the source performs targets a
`TARGET_COLUMNS` literal, carried here as the hypothesis); and a document
that raised yields a row with `error` set to the message and every
unassigned, non-provenance column equal to `None`. -/
theorem parse_daily_zip_schema (outcomes : List ParseOutcome) (zu rc : String)
    (h : ∀ o ∈ outcomes, ∀ p ∈ o.assigns, p.1 ∈ TARGET_COLUMNS) :
    (∃ fr, parse_daily_zip outcomes zu rc = some fr ∧ fr.cols = TARGET_COLUMNS)
  ∧ (∀ fs msg, rowLookup (parse_one_ixbrl (.failed fs msg) rc zu) "error" =
      some (some msg))
  ∧ (∀ fs msg c, c ∈ TARGET_COLUMNS → c ∉ fs.map Prod.fst →
      c ≠ "run_code" → c ≠ "zip_url" → c ≠ "file_type" → c ≠ "error" →
      rowLookup (parse_one_ixbrl (.failed fs msg) rc zu) c = some none) := by
  refine ⟨?_, ?_, ?_⟩
  · cases outcomes with
    | nil => exact ⟨_, rfl, rfl⟩
    | cons o os =>
      have hkeys : ∀ r ∈ (o :: os).map (fun o => parse_one_ixbrl o rc zu),
          r.map Prod.fst = TARGET_COLUMNS := by
        intro r hr
        obtain ⟨o', ho', rfl⟩ := List.mem_map.mp hr
        exact keys_parse_one o' rc zu (h o' ho')
      have hu : unionKeys ((o :: os).map (fun o => parse_one_ixbrl o rc zu)) =
          TARGET_COLUMNS := by
        rw [List.map_cons]
        rw [List.map_cons] at hkeys
        exact unionKeys_all_target _ _ hkeys
      have hstep : parse_daily_zip (o :: os) zu rc =
          selectCols (pdDataFrame ((o :: os).map (fun o => parse_one_ixbrl o rc zu)))
            TARGET_COLUMNS := rfl
      rw [hstep, selectCols, pdDataFrame]
      simp only [hu]
      rw [if_pos]
      · exact ⟨_, rfl, rfl⟩
      · apply List.all_eq_true.mpr
        intro c hc
        simpa using hc
  · intro fs msg
    rw [parse_one_ixbrl]
    exact rowLookup_dictSet_self _ _ _
  · intro fs msg c hcT hcfs h1 h2 h3 h4
    rw [parse_one_ixbrl, rowLookup_dictSet_ne _ _ _ _ h4,
      rowLookup_applyAssigns_of_not_mem fs _ c hcfs]
    exact rowLookup_baseRow_none rc zu c hcT h1 h2 h3

theorem parse_daily_zip_schema_witness :
    (∀ o ∈ [ParseOutcome.failed [("taxonomy", some "t")] "boom"],
      ∀ p ∈ o.assigns, p.1 ∈ TARGET_COLUMNS)
  ∧ (∃ fr, parse_daily_zip [ParseOutcome.failed [("taxonomy", some "t")] "boom"]
      "http://u/z.zip" "2025-01" = some fr ∧ fr.cols = TARGET_COLUMNS)
  ∧ rowLookup (parse_one_ixbrl (.failed [("taxonomy", some "t")] "boom")
      "2025-01" "http://u/z.zip") "error" = some (some "boom")
  ∧ rowLookup (parse_one_ixbrl (.failed [("taxonomy", some "t")] "boom")
      "2025-01" "http://u/z.zip") "debtors" = some none := by
  have h := parse_daily_zip_schema [ParseOutcome.failed [("taxonomy", some "t")] "boom"]
    "http://u/z.zip" "2025-01" (by decide)
  exact ⟨by decide, h.1, h.2.1 _ _,
    h.2.2 _ _ "debtors" (by decide) (by decide) (by decide) (by decide)
      (by decide) (by decide)⟩

end CompaniesHouse
